import Mathlib

/-!
Verification of the goharvest OAI-PMH client.

This file gives a shallow embedding of the repository's data model and the
operations relevant to its specification: the MARC/Dublin-Core envelope
structures, the field-extraction primitives, the `deduplicate` helper, and
the unified pagination loop `harvestWithParser`.  Stateful Go code is
embedded by explicit state passing; the HTTP fetch plus XML unmarshal stage
is abstracted into a scripted list of outcomes (one per loop iteration),
and the query string built by `performListRecordsRequest` is represented as
the ordered list of key/value parameters the code appends.
-/

namespace GoHarvest

/-- DateRange from metadata.go: optional inclusive from/until bounds. -/
structure DateRange where
  From : String
  Until : String
deriving DecidableEq

/-- OAIError from the envelope: code attribute and message text. -/
structure OAIError where
  Code : String
  Message : String
deriving DecidableEq

/-- ResumptionToken element of the envelope. -/
structure ResumptionToken where
  Token : String
  CompleteListSize : Int
  Cursor : Int
  ExpirationDate : String
deriving DecidableEq

/-- Header of an OAI-PMH record. -/
structure Header where
  Status : String
  Identifier : String
  DateStamp : String
  SetSpec : List String
deriving DecidableEq

/-- Subfield of a MARC data field. -/
structure Subfield where
  Code : String
  Value : String
deriving DecidableEq

/-- ControlField of a MARC record (tags below 010). -/
structure ControlField where
  Tag : String
  Value : String
deriving DecidableEq

/-- DataField of a MARC record (tag, two indicators, subfields). -/
structure DataField where
  Tag : String
  Ind1 : String
  Ind2 : String
  Subfields : List Subfield
deriving DecidableEq

/-- MARCRecord: leader, control fields, data fields. -/
structure MARCRecord where
  Leader : String
  ControlFields : List ControlField
  DataFields : List DataField
deriving DecidableEq

/-- Metadata wrapper of a MARCXML record: the payload is absent when the
XML held no record child (`MARCXML *MARCRecord` is nil). -/
structure Metadata where
  MARCXML : Option MARCRecord
deriving DecidableEq

/-- Record of the MARCXML envelope. -/
structure Record where
  header : Header
  metadata : Metadata
deriving DecidableEq

/-- ListRecords payload of the MARCXML envelope. -/
structure ListRecords where
  Records : List Record
  resumptionToken : Option ResumptionToken
deriving DecidableEq

/-- GetRecord payload of the MARCXML envelope. -/
structure GetRecord where
  record : Record
deriving DecidableEq

/-- OAIRequest echo element of the envelope. -/
structure OAIRequest where
  Verb : String
  MetadataPrefix : String
  resumptionToken : String
  URL : String
deriving DecidableEq

/-- OAIPMHResponse: the MARCXML envelope (marchxml.go). -/
structure OAIPMHResponse where
  ResponseDate : String
  Request : OAIRequest
  ListRecords : Option ListRecords
  GetRecord : Option GetRecord
  Error : Option OAIError
deriving DecidableEq

/-- DublinCore metadata element: fifteen repeatable string elements
(oai_dc.go).  The Go field `Type` is named `TypeDC` here because `Type` is
a Lean keyword. -/
structure DublinCore where
  Title : List String
  Creator : List String
  Subject : List String
  Description : List String
  Publisher : List String
  Contributor : List String
  Date : List String
  TypeDC : List String
  Format : List String
  Identifier : List String
  Source : List String
  Language : List String
  Relation : List String
  Coverage : List String
  Rights : List String
deriving DecidableEq

/-- MetadataDC wrapper: the Dublin-Core payload is absent when the XML held
no dc child (`DC *DublinCore` is nil). -/
structure MetadataDC where
  DC : Option DublinCore
deriving DecidableEq

/-- RecordDC of the Dublin-Core envelope. -/
structure RecordDC where
  header : Header
  metadata : MetadataDC
deriving DecidableEq

/-- ListRecordsDC payload of the Dublin-Core envelope. -/
structure ListRecordsDC where
  Records : List RecordDC
  resumptionToken : Option ResumptionToken
deriving DecidableEq

/-- GetRecordDC payload of the Dublin-Core envelope. -/
structure GetRecordDC where
  record : RecordDC
deriving DecidableEq

/-- OAIPMHResponseDC: the Dublin-Core envelope (oai_dc.go). -/
structure OAIPMHResponseDC where
  ResponseDate : String
  Request : OAIRequest
  ListRecords : Option ListRecordsDC
  GetRecord : Option GetRecordDC
  Error : Option OAIError
deriving DecidableEq

/-- MetadataExtractor: the polymorphic record handle returned by
`GetRecords()`; a handle wraps either a MARC record or a Dublin-Core
element. -/
inductive MetadataExtractor where
  | marc (m : MARCRecord)
  | dc (d : DublinCore)
deriving DecidableEq

/-- deduplicate's loop (metadata.go lines 133-144): `seen` models the
`map[string]bool` as the list of keys inserted so far, `unique` the
accumulator that is appended to. -/
def dedupLoop : List String → List String → List String → List String
  | _, unique, [] => unique
  | seen, unique, item :: rest =>
    if item = "" then dedupLoop seen unique rest
    else if item ∈ seen then dedupLoop seen unique rest
    else dedupLoop (item :: seen) (unique ++ [item]) rest

/-- deduplicate (metadata.go lines 128-147): removes empty strings and
duplicates from a slice, preserving first-seen order. -/
def deduplicate (items : List String) : List String :=
  if items.length = 0 then items else dedupLoop [] [] items

/-- Spec-side description of duplicate removal: keep each value's first
occurrence and erase every later repetition. -/
def removeDupFirstSeen : List String → List String
  | [] => []
  | x :: xs => x :: removeDupFirstSeen (xs.filter (fun y => y ≠ x))
termination_by l => l.length
decreasing_by
  simp only [List.length_cons]
  exact Nat.lt_succ_of_le (List.length_filter_le _ _)

/-- GetResumptionToken for the MARCXML envelope: the token of the
ListRecords payload when present, otherwise the empty string. -/
def OAIPMHResponse.GetResumptionToken (o : OAIPMHResponse) : String :=
  match o.ListRecords with
  | some lr =>
    match lr.resumptionToken with
    | some rt => rt.Token
    | none => ""
  | none => ""

/-- HasError for the MARCXML envelope: the Go code tests `o.Error != nil`. -/
def OAIPMHResponse.HasError (o : OAIPMHResponse) : Bool :=
  o.Error.isSome

/-- GetError for the MARCXML envelope. -/
def OAIPMHResponse.GetError (o : OAIPMHResponse) : Option OAIError :=
  o.Error

/-- GetResumptionToken for the Dublin-Core envelope. -/
def OAIPMHResponseDC.GetResumptionToken (o : OAIPMHResponseDC) : String :=
  match o.ListRecords with
  | some lr =>
    match lr.resumptionToken with
    | some rt => rt.Token
    | none => ""
  | none => ""

/-- HasError for the Dublin-Core envelope. -/
def OAIPMHResponseDC.HasError (o : OAIPMHResponseDC) : Bool :=
  o.Error.isSome

/-- GetError for the Dublin-Core envelope. -/
def OAIPMHResponseDC.GetError (o : OAIPMHResponseDC) : Option OAIError :=
  o.Error

/-- The URL-building half of performListRecordsRequest (harvester.go lines
107-126), with the query string represented as the ordered list of the
key/value parameters the code appends to `BaseURL + "?verb=ListRecords"`.
When a resumption token is present it is the only selection parameter;
otherwise the metadata prefix and, when supplied and non-empty, the date
bounds are appended; when both the token and the prefix are empty the
request fails before any fetch. -/
def listRecordsQueryParams (metadataPrefix resumptionToken : String)
    (dateRange : Option DateRange) : Except String (List (String × String)) :=
  if resumptionToken ≠ "" then
    Except.ok [("verb", "ListRecords"), ("resumptionToken", resumptionToken)]
  else if metadataPrefix ≠ "" then
    Except.ok ([("verb", "ListRecords"), ("metadataPrefix", metadataPrefix)] ++
      (match dateRange with
        | some dr =>
          (if dr.From ≠ "" then [("from", dr.From)] else []) ++
          (if dr.Until ≠ "" then [("until", dr.Until)] else [])
        | none => []))
  else Except.error "either metadataPrefix or resumptionToken must be provided"

/-- The protocol-error check shared by listRecordsRequestMARCXML and
listRecordsRequestDC (harvester.go lines 80-84 and 99-103): a well-formed
envelope carrying an error element is turned into a Go error with the code
and message, otherwise the envelope is returned. -/
def listRecordsCheck {α : Type} (getErr : α → Option OAIError) (resp : α) :
    Except String α :=
  match getErr resp with
  | some e => Except.error ("OAI-PMH error [" ++ e.Code ++ "]: " ++ e.Message)
  | none => Except.ok resp

/-- Trace of one run of the harvest loop: the query parameters of each
request issued, the responses delivered to the callback in order, and the
returned Go error (`none` is a nil error). -/
structure HarvestTrace (α : Type) where
  requests : List (List (String × String))
  delivered : List α
  result : Option String
deriving DecidableEq

/-- The body of harvestWithParser (harvester.go lines 37-66), one
recursive step per loop iteration.  The HTTP fetch plus XML unmarshal of
each iteration is scripted: the list holds one outcome per page the server
would serve (a transport/parse failure or a parsed envelope); an exhausted
script while the loop still wants a page is reported as a distinguished
error, a case no claim exercises.  The callback is a pure function of the
delivered envelope returning `some message` for a non-nil error.  After a
page with a non-empty token the loop continues with that token and clears
the date range, exactly as lines 60-62 do. -/
def harvestLoop {α : Type} (getErr : α → Option OAIError) (getTok : α → String)
    (callback : α → Option String) (metadataPrefix : String) :
    List (Except String α) → String → Option DateRange → HarvestTrace α
  | [], _, _ => ⟨[], [], some "script exhausted"⟩
  | outcome :: script, resumptionToken, dateRange =>
    match listRecordsQueryParams metadataPrefix resumptionToken dateRange with
    | Except.error e => ⟨[], [], some e⟩
    | Except.ok params =>
      match outcome with
      | Except.error e => ⟨[params], [], some e⟩
      | Except.ok resp =>
        match listRecordsCheck getErr resp with
        | Except.error e => ⟨[params], [], some e⟩
        | Except.ok _ =>
          match callback resp with
          | some e => ⟨[params], [resp], some ("callback error: " ++ e)⟩
          | none =>
            if getTok resp = "" then ⟨[params], [resp], none⟩
            else
              let t := harvestLoop getErr getTok callback metadataPrefix script
                (getTok resp) none
              ⟨params :: t.requests, resp :: t.delivered, t.result⟩

/-- harvestWithParser (harvester.go lines 37-66): the unified harvest loop,
started with an empty resumption token and the caller's date range. -/
def harvestWithParser {α : Type} (getErr : α → Option OAIError)
    (getTok : α → String) (callback : α → Option String)
    (metadataPrefix : String) (dateRange : Option DateRange)
    (script : List (Except String α)) : HarvestTrace α :=
  harvestLoop getErr getTok callback metadataPrefix script "" dateRange

/-- harvestMARCXML: the loop instantiated with the MARCXML parser's
accessors (harvester.go lines 27-29 with 68-85). -/
def harvestMARCXML (callback : OAIPMHResponse → Option String)
    (metadataPrefix : String) (dateRange : Option DateRange)
    (script : List (Except String OAIPMHResponse)) :
    HarvestTrace OAIPMHResponse :=
  harvestWithParser OAIPMHResponse.GetError OAIPMHResponse.GetResumptionToken
    callback metadataPrefix dateRange script

/-- harvestDublinCore: the loop instantiated with the Dublin-Core parser's
accessors (harvester.go lines 32-34 with 87-104). -/
def harvestDublinCore (callback : OAIPMHResponseDC → Option String)
    (metadataPrefix : String) (dateRange : Option DateRange)
    (script : List (Except String OAIPMHResponseDC)) :
    HarvestTrace OAIPMHResponseDC :=
  harvestWithParser OAIPMHResponseDC.GetError
    OAIPMHResponseDC.GetResumptionToken callback metadataPrefix dateRange
    script

/-- BookMetadata: the bibliographic projection extracted from a MARC
record. -/
structure BookMetadata where
  RecordID : String
  LastModified : String
  ISBN : String
  CallNumber : String
  MainAuthor : String
  CorporateAuthor : String
  MeetingName : String
  Title : String
  Subtitle : String
  Responsibility : String
  Edition : String
  PublishPlace : String
  Publisher : String
  PublishYear : String
  PhysicalDesc : String
  Notes : List String
  Bibliography : String
  Subjects : List String
  Authors : List String
  Holdings : List String
  URL : String
  Classification : String
deriving DecidableEq

/-- GetFieldValue: the first subfield value matching tag and code across
all data-field occurrences, in document order; empty string if none.  The
nested early-return loops of the Go code are the nested `findSome?`. -/
def MARCRecord.GetFieldValue (m : MARCRecord) (tag subfieldCode : String) :
    String :=
  match m.DataFields.findSome? (fun field =>
      if field.Tag = tag then
        field.Subfields.findSome? (fun subfield =>
          if subfield.Code = subfieldCode then some subfield.Value else none)
      else none) with
  | some v => v
  | none => ""

/-- GetFieldValues: every matching subfield value across all occurrences,
document order, duplicates included.  The appends of the nested Go loops
are the nested folds. -/
def MARCRecord.GetFieldValues (m : MARCRecord) (tag subfieldCode : String) :
    List String :=
  m.DataFields.foldl (fun values field =>
    if field.Tag = tag then
      field.Subfields.foldl (fun vs subfield =>
        if subfield.Code = subfieldCode then vs ++ [subfield.Value] else vs)
        values
    else values) []

/-- GetControlFieldValue: the first control-field value for the tag, empty
string if none. -/
def MARCRecord.GetControlFieldValue (m : MARCRecord) (tag : String) :
    String :=
  match m.ControlFields.findSome? (fun field =>
      if field.Tag = tag then some field.Value else none) with
  | some v => v
  | none => ""

/-- GetAllSubfields: every data-field occurrence with the tag, in document
order, as the Go loop appends them. -/
def MARCRecord.GetAllSubfields (m : MARCRecord) (tag : String) :
    List DataField :=
  m.DataFields.foldl (fun fields field =>
    if field.Tag = tag then fields ++ [field] else fields) []

/-- The CallNumber branch of ExtractBookMetadata (part_002 lines 274-289):
from the first "090" occurrence, collect the non-empty subfield values in
order; the call number is the first of them and, when a second exists, the
first two joined with one space. -/
def MARCRecord.callNumber090 (m : MARCRecord) : String :=
  match m.GetAllSubfields "090" with
  | [] => ""
  | field :: _ =>
    let callParts := field.Subfields.foldl (fun parts subfield =>
      if subfield.Value ≠ "" then parts ++ [subfield.Value] else parts) []
    match callParts with
    | [] => ""
    | [p] => p
    | p :: q :: _ => p ++ " " ++ q

/-- The PhysicalDesc branch of ExtractBookMetadata (part_002 lines
313-328): from the first "300" occurrence, collect the non-empty subfield
values in order and join all of them with single spaces. -/
def MARCRecord.physicalDesc300 (m : MARCRecord) : String :=
  match m.GetAllSubfields "300" with
  | [] => ""
  | field :: _ =>
    let physDesc := field.Subfields.foldl (fun parts subfield =>
      if subfield.Value ≠ "" then parts ++ [subfield.Value] else parts) []
    match physDesc with
    | [] => ""
    | p :: rest => rest.foldl (fun acc v => acc ++ " " ++ v) p

/-- ExtractBookMetadata (part_002 lines 252-352): the fixed tag/subfield
projection of a MARC record.  The Go nil-receiver guard is handled by the
callers (GetRecords only wraps non-nil records). -/
def MARCRecord.ExtractBookMetadata (m : MARCRecord) : BookMetadata where
  RecordID := m.GetControlFieldValue "001"
  LastModified := m.GetControlFieldValue "005"
  ISBN := m.GetFieldValue "020" "a"
  Classification := m.GetFieldValue "082" "a"
  CallNumber := m.callNumber090
  MainAuthor := m.GetFieldValue "100" "a"
  CorporateAuthor := m.GetFieldValue "110" "a"
  MeetingName := m.GetFieldValue "111" "a"
  Title := m.GetFieldValue "245" "a"
  Subtitle := m.GetFieldValue "245" "b"
  Responsibility := m.GetFieldValue "245" "c"
  Edition := m.GetFieldValue "250" "a"
  PublishPlace := m.GetFieldValue "260" "a"
  Publisher := m.GetFieldValue "260" "b"
  PublishYear := m.GetFieldValue "260" "c"
  PhysicalDesc := m.physicalDesc300
  Notes := m.GetFieldValues "500" "a"
  Bibliography := m.GetFieldValue "504" "a"
  Subjects := m.GetFieldValues "650" "a"
  Authors := m.GetFieldValues "700" "a"
  Holdings := m.GetFieldValues "990" "a" ++ m.GetFieldValues "999" "a"
  URL := m.GetFieldValue "856" "u"

/-- GetRecords for the MARCXML envelope (part_002 lines 384-402): walk the
listed records appending a handle for each one whose MARC payload is
present, then append the GetRecord record's handle when present. -/
def OAIPMHResponse.GetRecords (o : OAIPMHResponse) :
    List MetadataExtractor :=
  let extractors :=
    match o.ListRecords with
    | some lr =>
      lr.Records.foldl (fun acc r =>
        match r.metadata.MARCXML with
        | some mr => acc ++ [MetadataExtractor.marc mr]
        | none => acc) []
    | none => []
  match o.GetRecord with
  | some gr =>
    match gr.record.metadata.MARCXML with
    | some mr => extractors ++ [MetadataExtractor.marc mr]
    | none => extractors
  | none => extractors

/-- GetRecords for the Dublin-Core envelope (metadata.go lines 249-267):
same walk over the Dublin-Core payloads. -/
def OAIPMHResponseDC.GetRecords (o : OAIPMHResponseDC) :
    List MetadataExtractor :=
  let extractors :=
    match o.ListRecords with
    | some lr =>
      lr.Records.foldl (fun acc r =>
        match r.metadata.DC with
        | some d => acc ++ [MetadataExtractor.dc d]
        | none => acc) []
    | none => []
  match o.GetRecord with
  | some gr =>
    match gr.record.metadata.DC with
    | some d => extractors ++ [MetadataExtractor.dc d]
    | none => extractors
  | none => extractors

/-- Spec-side space-separated concatenation of a list of strings. -/
def spaceJoin : List String → String
  | [] => ""
  | [v] => v
  | v :: rest => v ++ " " ++ spaceJoin rest

/-- The CallNumber rule exactly as the spec words it: take the first "090"
field occurrence; concatenate its first subfield and, if present, its
second subfield with one space; subfields beyond the second are ignored. -/
def callNumberSpecRule (m : MARCRecord) : String :=
  match m.GetAllSubfields "090" with
  | [] => ""
  | field :: _ =>
    match field.Subfields with
    | [] => ""
    | [s] => s.Value
    | s :: t :: _ => s.Value ++ " " ++ t.Value

/-- The amended CallNumber rule: take the first "090" field occurrence,
keep its non-empty subfield values in order, and join the first two of
them (one when only one remains) with one space; later non-empty values
are ignored, but a subfield beyond the second can contribute when an
earlier subfield value is empty. -/
def callNumberAmendedRule (m : MARCRecord) : String :=
  match m.GetAllSubfields "090" with
  | [] => ""
  | field :: _ =>
    spaceJoin (((field.Subfields.map Subfield.Value).filter
      (fun v => v ≠ "")).take 2)

/-- The PhysicalDesc rule as the spec words it: take the first "300" field
occurrence and join all of its non-empty subfield values with single
spaces, with no cap on the subfield count. -/
def physicalDescSpecRule (m : MARCRecord) : String :=
  match m.GetAllSubfields "300" with
  | [] => ""
  | field :: _ =>
    spaceJoin ((field.Subfields.map Subfield.Value).filter (fun v => v ≠ ""))

/-- A control field with the tag is present. -/
def hasControlTag (m : MARCRecord) (tag : String) : Prop :=
  ∃ f ∈ m.ControlFields, f.Tag = tag

/-- A data field with the tag is present. -/
def hasDataTag (m : MARCRecord) (tag : String) : Prop :=
  ∃ f ∈ m.DataFields, f.Tag = tag

/-- A data field with the tag carrying a subfield with the code is
present. -/
def hasDataValue (m : MARCRecord) (tag code : String) : Prop :=
  ∃ f ∈ m.DataFields, f.Tag = tag ∧ ∃ s ∈ f.Subfields, s.Code = code

/-- The listed record elements of a MARCXML page. -/
def listedRecords (o : OAIPMHResponse) : List Record :=
  match o.ListRecords with
  | some lr => lr.Records
  | none => []

/-- The listed record elements of a Dublin-Core page. -/
def listedRecordsDC (o : OAIPMHResponseDC) : List RecordDC :=
  match o.ListRecords with
  | some lr => lr.Records
  | none => []

/-- The handle of the GetRecord record of a MARCXML page, when present
with a MARC payload. -/
def getRecordHandles (o : OAIPMHResponse) : List MetadataExtractor :=
  match o.GetRecord with
  | some gr =>
    match gr.record.metadata.MARCXML with
    | some mr => [MetadataExtractor.marc mr]
    | none => []
  | none => []

/-- The handle of the GetRecord record of a Dublin-Core page, when
present with a Dublin-Core payload. -/
def getRecordHandlesDC (o : OAIPMHResponseDC) : List MetadataExtractor :=
  match o.GetRecord with
  | some gr =>
    match gr.record.metadata.DC with
    | some d => [MetadataExtractor.dc d]
    | none => []
  | none => []

/-- A scripted page sequence in which every page is error-free, every page
but the last carries a non-empty continuation token, and the last carries
none. -/
def pageChain {α : Type} (getErr : α → Option OAIError) (getTok : α → String) :
    List α → Prop
  | [] => True
  | [p] => getErr p = none ∧ getTok p = ""
  | p :: q :: rest =>
    getErr p = none ∧ getTok p ≠ "" ∧ pageChain getErr getTok (q :: rest)

theorem filter_notin_cons (l : List String) (item : String)
    (seen : List String) :
    (l.filter (fun y => y ≠ "" ∧ y ∉ seen)).filter (fun y => y ≠ item) =
      l.filter (fun y => y ≠ "" ∧ y ∉ item :: seen) := by
  rw [List.filter_filter]
  apply List.filter_congr
  intro x _
  by_cases h1 : x = item <;> by_cases h2 : x = "" <;> by_cases h3 : x ∈ seen <;>
    simp [h1, h2, h3]

theorem dedupLoop_eq_removeDup :
    ∀ (rest seen unique : List String),
    dedupLoop seen unique rest =
      unique ++ removeDupFirstSeen (rest.filter (fun y => y ≠ "" ∧ y ∉ seen))
  | [], seen, unique => by
    simp [dedupLoop, removeDupFirstSeen]
  | item :: rest, seen, unique => by
    by_cases h0 : item = ""
    · rw [show dedupLoop seen unique (item :: rest) =
          dedupLoop seen unique rest from by simp [dedupLoop, h0],
        dedupLoop_eq_removeDup rest seen unique]
      congr 2
      simp [List.filter_cons, h0]
    · by_cases h1 : item ∈ seen
      · rw [show dedupLoop seen unique (item :: rest) =
            dedupLoop seen unique rest from by simp [dedupLoop, h0, h1],
          dedupLoop_eq_removeDup rest seen unique]
        congr 2
        simp [List.filter_cons, h0, h1]
      · rw [show dedupLoop seen unique (item :: rest) =
            dedupLoop (item :: seen) (unique ++ [item]) rest from by
              simp [dedupLoop, h0, h1],
          dedupLoop_eq_removeDup rest (item :: seen) (unique ++ [item])]
        rw [show (item :: rest).filter (fun y => y ≠ "" ∧ y ∉ seen) =
            item :: rest.filter (fun y => y ≠ "" ∧ y ∉ seen) from by
              simp [List.filter_cons, h0, h1]]
        rw [removeDupFirstSeen, filter_notin_cons]
        simp

theorem deduplicate_eq_removeDup (items : List String) :
    deduplicate items = removeDupFirstSeen (items.filter (fun y => y ≠ "")) := by
  cases items with
  | nil => simp [deduplicate, removeDupFirstSeen]
  | cons x xs =>
    rw [deduplicate, if_neg (by simp), dedupLoop_eq_removeDup]
    simp only [List.nil_append]
    congr 1
    apply List.filter_congr
    intro y _
    simp

theorem mem_of_mem_removeDupFirstSeen :
    ∀ (l : List String) (y : String), y ∈ removeDupFirstSeen l → y ∈ l
  | [], y, hy => by simp [removeDupFirstSeen] at hy
  | x :: xs, y, hy => by
    rw [removeDupFirstSeen] at hy
    rcases List.mem_cons.mp hy with h | h
    · exact h ▸ List.mem_cons_self x xs
    · exact List.mem_cons_of_mem x
        (List.mem_of_mem_filter
          (mem_of_mem_removeDupFirstSeen (xs.filter (fun z => z ≠ x)) y h))
termination_by l _ _ => l.length
decreasing_by
  simp only [List.length_cons]
  exact Nat.lt_succ_of_le (List.length_filter_le _ _)

theorem nodup_removeDupFirstSeen : ∀ (l : List String),
    (removeDupFirstSeen l).Nodup
  | [] => by simp [removeDupFirstSeen]
  | x :: xs => by
    rw [removeDupFirstSeen]
    refine List.nodup_cons.mpr ⟨?_, nodup_removeDupFirstSeen _⟩
    intro hx
    have hmem := mem_of_mem_removeDupFirstSeen _ _ hx
    have := List.mem_filter.mp hmem
    simp at this
termination_by l => l.length
decreasing_by
  simp only [List.length_cons]
  exact Nat.lt_succ_of_le (List.length_filter_le _ _)

theorem removeDupFirstSeen_eq_self : ∀ (l : List String),
    l.Nodup → removeDupFirstSeen l = l
  | [], _ => by simp [removeDupFirstSeen]
  | x :: xs, h => by
    rw [removeDupFirstSeen]
    have hx : x ∉ xs := (List.nodup_cons.mp h).1
    have hfilter : xs.filter (fun y => y ≠ x) = xs := by
      apply List.filter_eq_self.mpr
      intro y hy
      simp only [decide_eq_true_eq]
      exact fun h' => hx (h' ▸ hy)
    rw [hfilter, removeDupFirstSeen_eq_self xs (List.nodup_cons.mp h).2]
termination_by l _ => l.length
decreasing_by
  simp only [List.length_cons]
  exact Nat.lt_succ_self _

/-- Claim C6: for every sequence x of strings, deduplicate x equals the
sequence obtained by first dropping every empty-string entry of x and then
removing duplicate values while preserving first-seen order; in particular
deduplicate ["a", "", "b", "a"] = ["a", "b"]. -/
theorem deduplicate_drops_empty_then_dedups_first_seen :
    (∀ x : List String,
      deduplicate x = removeDupFirstSeen (x.filter (fun y => y ≠ ""))) ∧
    deduplicate ["a", "", "b", "a"] = ["a", "b"] :=
  ⟨deduplicate_eq_removeDup, by decide⟩

/-- Claim C7: deduplicate is idempotent: for every sequence x of strings,
deduplicate (deduplicate x) = deduplicate x. -/
theorem deduplicate_idempotent (x : List String) :
    deduplicate (deduplicate x) = deduplicate x := by
  rw [deduplicate_eq_removeDup x,
    deduplicate_eq_removeDup (removeDupFirstSeen (x.filter (fun y => y ≠ "")))]
  have hfe : (removeDupFirstSeen (x.filter (fun y => y ≠ ""))).filter
      (fun y => y ≠ "") = removeDupFirstSeen (x.filter (fun y => y ≠ "")) := by
    apply List.filter_eq_self.mpr
    intro y hy
    have hmem := mem_of_mem_removeDupFirstSeen _ y hy
    have := List.mem_filter.mp hmem
    simpa using this.2
  rw [hfe]
  exact removeDupFirstSeen_eq_self _ (nodup_removeDupFirstSeen _)

theorem GetAllSubfields_eq (m : MARCRecord) (tag : String) :
    m.GetAllSubfields tag = m.DataFields.filter (fun f => f.Tag = tag) := by
  have h : ∀ (l : List DataField) (acc : List DataField),
      l.foldl (fun fields field =>
          if field.Tag = tag then fields ++ [field] else fields) acc =
        acc ++ l.filter (fun f => f.Tag = tag) := by
    intro l
    induction l with
    | nil => intro acc; simp
    | cons f l ih =>
      intro acc
      by_cases hf : f.Tag = tag
      · simp [List.filter_cons, hf, ih]
      · simp [List.filter_cons, hf, ih]
  simpa [MARCRecord.GetAllSubfields] using h m.DataFields []

theorem foldl_nonempty_values (subs : List Subfield) :
    subs.foldl (fun parts subfield =>
        if subfield.Value ≠ "" then parts ++ [subfield.Value] else parts) [] =
      (subs.map Subfield.Value).filter (fun v => v ≠ "") := by
  have h : ∀ (l : List Subfield) (acc : List String),
      l.foldl (fun parts s =>
          if s.Value ≠ "" then parts ++ [s.Value] else parts) acc =
        acc ++ (l.map Subfield.Value).filter (fun v => v ≠ "") := by
    intro l
    induction l with
    | nil => intro acc; simp
    | cons s l ih =>
      intro acc
      simp only [List.foldl_cons, List.map_cons, List.filter_cons]
      by_cases hs : s.Value = ""
      · rw [if_neg (not_not_intro hs), ih acc, if_neg (by simp [hs])]
      · rw [if_pos hs, ih (acc ++ [s.Value]), if_pos (by simp [hs])]
        simp
  simpa using h subs []

theorem foldl_spaceJoin : ∀ (rest : List String) (p : String),
    rest.foldl (fun acc v => acc ++ " " ++ v) p = spaceJoin (p :: rest)
  | [], p => by simp [spaceJoin]
  | q :: rest, p => by
    rw [List.foldl_cons, foldl_spaceJoin rest (p ++ " " ++ q)]
    cases rest with
    | nil => simp [spaceJoin]
    | cons r rs => simp [spaceJoin, String.append_assoc]

/-- The record of the claim C5 counterexample: a single "090" field whose
three subfields hold the values "", "X" and "Y". -/
def callNumberCexField : DataField where
  Tag := "090"
  Ind1 := " "
  Ind2 := " "
  Subfields := [⟨"a", ""⟩, ⟨"b", "X"⟩, ⟨"c", "Y"⟩]

/-- The record of the claim C5 counterexample. -/
def callNumberCexRecord : MARCRecord where
  Leader := ""
  ControlFields := []
  DataFields := [callNumberCexField]

/-- Claim C5 counterexample: on a record whose single "090" field has the
three subfield values "", "X", "Y", the code produces the call number
"X Y" - drawing on the third subfield - while the claim's rule (first
subfield, then the second if present, one space, ignore the rest) yields
" X"; the two disagree, so the claim as stated is false. -/
theorem callNumber_rule_counterexample :
    (callNumberCexRecord.ExtractBookMetadata).CallNumber = "X Y" ∧
    callNumberSpecRule callNumberCexRecord = " X" ∧
    (callNumberCexRecord.ExtractBookMetadata).CallNumber ≠
      callNumberSpecRule callNumberCexRecord :=
  ⟨by decide, by decide, by decide⟩

/-- Claim C5 (amended): for every MARC record, CallNumber is built from
the first "090" field occurrence by joining the first two of its non-empty
subfield values with one space - so values beyond the second non-empty one
are ignored, but a subfield beyond the second can contribute when an
earlier subfield value is empty - while PhysicalDesc is built from the
first "300" field occurrence by joining all of its non-empty subfield
values with single spaces, with no cap on the count. -/
theorem extract_callNumber_physicalDesc (m : MARCRecord) :
    (m.ExtractBookMetadata).CallNumber = callNumberAmendedRule m ∧
    (m.ExtractBookMetadata).PhysicalDesc = physicalDescSpecRule m := by
  constructor
  · show m.callNumber090 = callNumberAmendedRule m
    rw [MARCRecord.callNumber090, callNumberAmendedRule]
    cases h : m.GetAllSubfields "090" with
    | nil => rfl
    | cons f rest =>
      simp only [foldl_nonempty_values]
      cases hv : (f.Subfields.map Subfield.Value).filter (fun v => v ≠ "") with
      | nil => rfl
      | cons p ps =>
        cases ps with
        | nil => rfl
        | cons q qs => rfl
  · show m.physicalDesc300 = physicalDescSpecRule m
    rw [MARCRecord.physicalDesc300, physicalDescSpecRule]
    cases h : m.GetAllSubfields "300" with
    | nil => rfl
    | cons f rest =>
      simp only [foldl_nonempty_values]
      cases hv : (f.Subfields.map Subfield.Value).filter (fun v => v ≠ "") with
      | nil => rfl
      | cons p ps => exact foldl_spaceJoin ps p

theorem GetControlFieldValue_absent (m : MARCRecord) (tag : String)
    (h : ¬ hasControlTag m tag) : m.GetControlFieldValue tag = "" := by
  rw [MARCRecord.GetControlFieldValue]
  rw [List.findSome?_eq_none_iff.mpr]
  intro f hf
  rw [if_neg]
  intro htag
  exact h ⟨f, hf, htag⟩

theorem GetFieldValue_absent (m : MARCRecord) (tag code : String)
    (h : ¬ hasDataValue m tag code) : m.GetFieldValue tag code = "" := by
  rw [MARCRecord.GetFieldValue]
  rw [List.findSome?_eq_none_iff.mpr]
  intro f hf
  by_cases htag : f.Tag = tag
  · rw [if_pos htag]
    rw [List.findSome?_eq_none_iff.mpr]
    intro s hs
    rw [if_neg]
    intro hcode
    exact h ⟨f, hf, htag, s, hs, hcode⟩
  · rw [if_neg htag]

theorem foldl_subfields_absent (code : String) :
    ∀ (subs : List Subfield) (acc : List String),
    (∀ s ∈ subs, s.Code ≠ code) →
    subs.foldl (fun vs s =>
        if s.Code = code then vs ++ [s.Value] else vs) acc = acc
  | [], _, _ => rfl
  | s :: subs, acc, h => by
    rw [List.foldl_cons, if_neg (h s (List.mem_cons_self s subs)),
      foldl_subfields_absent code subs acc
        (fun t ht => h t (List.mem_cons_of_mem s ht))]

theorem GetFieldValues_absent (m : MARCRecord) (tag code : String)
    (h : ¬ hasDataValue m tag code) : m.GetFieldValues tag code = [] := by
  rw [MARCRecord.GetFieldValues]
  have main : ∀ (l : List DataField),
      (∀ f ∈ l, f.Tag = tag → ∀ s ∈ f.Subfields, s.Code ≠ code) →
      ∀ (acc : List String),
      l.foldl (fun values field =>
        if field.Tag = tag then
          field.Subfields.foldl (fun vs subfield =>
            if subfield.Code = code then vs ++ [subfield.Value] else vs)
            values
        else values) acc = acc := by
    intro l
    induction l with
    | nil => intro _ acc; rfl
    | cons f l ih =>
      intro hl acc
      rw [List.foldl_cons]
      by_cases htag : f.Tag = tag
      · rw [if_pos htag,
          foldl_subfields_absent code f.Subfields acc
            (hl f (List.mem_cons_self f l) htag)]
        exact ih (fun g hg => hl g (List.mem_cons_of_mem f hg)) acc
      · rw [if_neg htag]
        exact ih (fun g hg => hl g (List.mem_cons_of_mem f hg)) acc
  apply main
  intro f hf htag s hs hcode
  exact h ⟨f, hf, htag, s, hs, hcode⟩

theorem GetAllSubfields_absent (m : MARCRecord) (tag : String)
    (h : ¬ hasDataTag m tag) : m.GetAllSubfields tag = [] := by
  rw [GetAllSubfields_eq]
  rw [List.filter_eq_nil_iff]
  intro f hf
  simp only [decide_eq_true_eq]
  intro htag
  exact h ⟨f, hf, htag⟩

/-- Claim C9: ExtractBookMetadata is a total function (it always succeeds;
in this embedding it is a plain function with no error outcome), and every
target whose source tag/subfield is absent from the record is the empty
string or the empty sequence. -/
theorem extractBookMetadata_total_absent_empty (m : MARCRecord) :
    (¬ hasControlTag m "001" → (m.ExtractBookMetadata).RecordID = "") ∧
    (¬ hasControlTag m "005" → (m.ExtractBookMetadata).LastModified = "") ∧
    (¬ hasDataValue m "020" "a" → (m.ExtractBookMetadata).ISBN = "") ∧
    (¬ hasDataValue m "082" "a" →
      (m.ExtractBookMetadata).Classification = "") ∧
    (¬ hasDataTag m "090" → (m.ExtractBookMetadata).CallNumber = "") ∧
    (¬ hasDataValue m "100" "a" → (m.ExtractBookMetadata).MainAuthor = "") ∧
    (¬ hasDataValue m "110" "a" →
      (m.ExtractBookMetadata).CorporateAuthor = "") ∧
    (¬ hasDataValue m "111" "a" → (m.ExtractBookMetadata).MeetingName = "") ∧
    (¬ hasDataValue m "245" "a" → (m.ExtractBookMetadata).Title = "") ∧
    (¬ hasDataValue m "245" "b" → (m.ExtractBookMetadata).Subtitle = "") ∧
    (¬ hasDataValue m "245" "c" →
      (m.ExtractBookMetadata).Responsibility = "") ∧
    (¬ hasDataValue m "250" "a" → (m.ExtractBookMetadata).Edition = "") ∧
    (¬ hasDataValue m "260" "a" → (m.ExtractBookMetadata).PublishPlace = "") ∧
    (¬ hasDataValue m "260" "b" → (m.ExtractBookMetadata).Publisher = "") ∧
    (¬ hasDataValue m "260" "c" → (m.ExtractBookMetadata).PublishYear = "") ∧
    (¬ hasDataTag m "300" → (m.ExtractBookMetadata).PhysicalDesc = "") ∧
    (¬ hasDataValue m "500" "a" → (m.ExtractBookMetadata).Notes = []) ∧
    (¬ hasDataValue m "504" "a" → (m.ExtractBookMetadata).Bibliography = "") ∧
    (¬ hasDataValue m "650" "a" → (m.ExtractBookMetadata).Subjects = []) ∧
    (¬ hasDataValue m "700" "a" → (m.ExtractBookMetadata).Authors = []) ∧
    (¬ hasDataValue m "990" "a" → ¬ hasDataValue m "999" "a" →
      (m.ExtractBookMetadata).Holdings = []) ∧
    (¬ hasDataValue m "856" "u" → (m.ExtractBookMetadata).URL = "") := by
  refine ⟨fun h => GetControlFieldValue_absent m _ h,
    fun h => GetControlFieldValue_absent m _ h,
    fun h => GetFieldValue_absent m _ _ h,
    fun h => GetFieldValue_absent m _ _ h,
    fun h => ?_,
    fun h => GetFieldValue_absent m _ _ h,
    fun h => GetFieldValue_absent m _ _ h,
    fun h => GetFieldValue_absent m _ _ h,
    fun h => GetFieldValue_absent m _ _ h,
    fun h => GetFieldValue_absent m _ _ h,
    fun h => GetFieldValue_absent m _ _ h,
    fun h => GetFieldValue_absent m _ _ h,
    fun h => GetFieldValue_absent m _ _ h,
    fun h => GetFieldValue_absent m _ _ h,
    fun h => GetFieldValue_absent m _ _ h,
    fun h => ?_,
    fun h => GetFieldValues_absent m _ _ h,
    fun h => GetFieldValue_absent m _ _ h,
    fun h => GetFieldValues_absent m _ _ h,
    fun h => GetFieldValues_absent m _ _ h,
    fun h990 h999 => ?_,
    fun h => GetFieldValue_absent m _ _ h⟩
  · show m.callNumber090 = ""
    rw [MARCRecord.callNumber090, GetAllSubfields_absent m "090" h]
  · show m.physicalDesc300 = ""
    rw [MARCRecord.physicalDesc300, GetAllSubfields_absent m "300" h]
  · show m.GetFieldValues "990" "a" ++ m.GetFieldValues "999" "a" = []
    rw [GetFieldValues_absent m _ _ h990, GetFieldValues_absent m _ _ h999]
    rfl

/-- The record with no control fields and no data fields, used to witness
claim C9. -/
def emptyMARCRecord : MARCRecord where
  Leader := ""
  ControlFields := []
  DataFields := []

/-- Witness for claim C9: at the record with no fields at all, every
absence hypothesis holds and every extracted target is empty. -/
theorem extractBookMetadata_total_absent_empty_witness :
    (emptyMARCRecord.ExtractBookMetadata).RecordID = "" ∧
    (emptyMARCRecord.ExtractBookMetadata).LastModified = "" ∧
    (emptyMARCRecord.ExtractBookMetadata).ISBN = "" ∧
    (emptyMARCRecord.ExtractBookMetadata).Classification = "" ∧
    (emptyMARCRecord.ExtractBookMetadata).CallNumber = "" ∧
    (emptyMARCRecord.ExtractBookMetadata).MainAuthor = "" ∧
    (emptyMARCRecord.ExtractBookMetadata).CorporateAuthor = "" ∧
    (emptyMARCRecord.ExtractBookMetadata).MeetingName = "" ∧
    (emptyMARCRecord.ExtractBookMetadata).Title = "" ∧
    (emptyMARCRecord.ExtractBookMetadata).Subtitle = "" ∧
    (emptyMARCRecord.ExtractBookMetadata).Responsibility = "" ∧
    (emptyMARCRecord.ExtractBookMetadata).Edition = "" ∧
    (emptyMARCRecord.ExtractBookMetadata).PublishPlace = "" ∧
    (emptyMARCRecord.ExtractBookMetadata).Publisher = "" ∧
    (emptyMARCRecord.ExtractBookMetadata).PublishYear = "" ∧
    (emptyMARCRecord.ExtractBookMetadata).PhysicalDesc = "" ∧
    (emptyMARCRecord.ExtractBookMetadata).Notes = [] ∧
    (emptyMARCRecord.ExtractBookMetadata).Bibliography = "" ∧
    (emptyMARCRecord.ExtractBookMetadata).Subjects = [] ∧
    (emptyMARCRecord.ExtractBookMetadata).Authors = [] ∧
    (emptyMARCRecord.ExtractBookMetadata).Holdings = [] ∧
    (emptyMARCRecord.ExtractBookMetadata).URL = "" := by
  obtain ⟨h1, h2, h3, h4, h5, h6, h7, h8, h9, h10, h11, h12, h13, h14, h15,
      h16, h17, h18, h19, h20, h21, h22⟩ :=
    extractBookMetadata_total_absent_empty emptyMARCRecord
  refine ⟨h1 ?_, h2 ?_, h3 ?_, h4 ?_, h5 ?_, h6 ?_, h7 ?_, h8 ?_, h9 ?_,
    h10 ?_, h11 ?_, h12 ?_, h13 ?_, h14 ?_, h15 ?_, h16 ?_, h17 ?_, h18 ?_,
    h19 ?_, h20 ?_, h21 ?_ ?_, h22 ?_⟩ <;>
    simp [hasControlTag, hasDataValue, hasDataTag, emptyMARCRecord]

theorem marcHandles_foldl : ∀ (l : List Record) (acc : List MetadataExtractor),
    l.foldl (fun acc r =>
      match r.metadata.MARCXML with
      | some mr => acc ++ [MetadataExtractor.marc mr]
      | none => acc) acc =
      acc ++ l.filterMap (fun r => r.metadata.MARCXML.map MetadataExtractor.marc)
  | [], acc => by simp
  | r :: l, acc => by
    cases hr : r.metadata.MARCXML with
    | none =>
      simp only [List.foldl_cons, hr]
      rw [marcHandles_foldl l acc]
      simp [List.filterMap_cons, hr]
    | some mr =>
      simp only [List.foldl_cons, hr]
      rw [marcHandles_foldl l (acc ++ [MetadataExtractor.marc mr])]
      simp [List.filterMap_cons, hr]

theorem dcHandles_foldl : ∀ (l : List RecordDC) (acc : List MetadataExtractor),
    l.foldl (fun acc r =>
      match r.metadata.DC with
      | some d => acc ++ [MetadataExtractor.dc d]
      | none => acc) acc =
      acc ++ l.filterMap (fun r => r.metadata.DC.map MetadataExtractor.dc)
  | [], acc => by simp
  | r :: l, acc => by
    cases hr : r.metadata.DC with
    | none =>
      simp only [List.foldl_cons, hr]
      rw [dcHandles_foldl l acc]
      simp [List.filterMap_cons, hr]
    | some d =>
      simp only [List.foldl_cons, hr]
      rw [dcHandles_foldl l (acc ++ [MetadataExtractor.dc d])]
      simp [List.filterMap_cons, hr]

/-- A record element whose metadata carried no MARC payload (as the XML of
a deleted record, which has a header but no metadata element, parses). -/
def skippedRecord : Record where
  header := ⟨"deleted", "oai:id:1", "2024-01-01", []⟩
  metadata := ⟨none⟩

/-- The page of the claim C8 counterexample: one listed record element, no
MARC payload. -/
def skippedRecordPage : OAIPMHResponse where
  ResponseDate := ""
  Request := ⟨"ListRecords", "marcxml", "", ""⟩
  ListRecords := some ⟨[skippedRecord], none⟩
  GetRecord := none
  Error := none

/-- Claim C8 counterexample: a parsed MARCXML page with exactly one listed
record element - whose format payload is absent - yields no handle at all,
so GetRecords does not return one handle per record element of the page. -/
theorem getRecords_per_record_counterexample :
    (listedRecords skippedRecordPage).length = 1 ∧
    skippedRecordPage.GetRecords = [] :=
  ⟨by decide, by decide⟩

/-- Claim C8 (amended): for every parsed response page, in both formats,
GetRecords returns one polymorphic record handle per listed record element
whose format-specific metadata payload is present, in document order -
record elements without such a payload are skipped - followed by the
handle of the GetRecord record when that one is present with a payload. -/
theorem getRecords_document_order :
    (∀ o : OAIPMHResponse,
      o.GetRecords =
        (listedRecords o).filterMap
          (fun r => r.metadata.MARCXML.map MetadataExtractor.marc) ++
        getRecordHandles o) ∧
    (∀ o : OAIPMHResponseDC,
      o.GetRecords =
        (listedRecordsDC o).filterMap
          (fun r => r.metadata.DC.map MetadataExtractor.dc) ++
        getRecordHandlesDC o) := by
  constructor
  · intro o
    rw [OAIPMHResponse.GetRecords, listedRecords, getRecordHandles]
    cases hlr : o.ListRecords with
    | none =>
      cases hgr : o.GetRecord with
      | none => simp
      | some gr => cases hm : gr.record.metadata.MARCXML <;> simp [hm]
    | some lr =>
      cases hgr : o.GetRecord with
      | none => simp [marcHandles_foldl lr.Records []]
      | some gr =>
        cases hm : gr.record.metadata.MARCXML <;>
          simp [hm, marcHandles_foldl lr.Records []]
  · intro o
    rw [OAIPMHResponseDC.GetRecords, listedRecordsDC, getRecordHandlesDC]
    cases hlr : o.ListRecords with
    | none =>
      cases hgr : o.GetRecord with
      | none => simp
      | some gr => cases hm : gr.record.metadata.DC <;> simp [hm]
    | some lr =>
      cases hgr : o.GetRecord with
      | none => simp [dcHandles_foldl lr.Records []]
      | some gr =>
        cases hm : gr.record.metadata.DC <;>
          simp [hm, dcHandles_foldl lr.Records []]

theorem listRecordsQueryParams_token (mp tok : String) (dr : Option DateRange)
    (h : tok ≠ "") :
    listRecordsQueryParams mp tok dr =
      Except.ok [("verb", "ListRecords"), ("resumptionToken", tok)] := by
  rw [listRecordsQueryParams.eq_def, if_pos h]

theorem listRecordsQueryParams_first (mp : String) (hmp : mp ≠ "")
    (dr : DateRange) (hf : dr.From ≠ "") (hu : dr.Until ≠ "") :
    listRecordsQueryParams mp "" (some dr) =
      Except.ok [("verb", "ListRecords"), ("metadataPrefix", mp),
        ("from", dr.From), ("until", dr.Until)] := by
  rw [listRecordsQueryParams.eq_def, if_neg (by simp), if_pos hmp]
  simp [hf, hu]

theorem listRecordsQueryParams_isOk (mp rt : String) (dr : Option DateRange)
    (h : rt ≠ "" ∨ mp ≠ "") :
    ∃ ps, listRecordsQueryParams mp rt dr = Except.ok ps := by
  rw [listRecordsQueryParams.eq_def]
  by_cases hrt : rt ≠ ""
  · rw [if_pos hrt]
    exact ⟨_, rfl⟩
  · rw [if_neg hrt, if_pos (h.resolve_left hrt)]
    exact ⟨_, rfl⟩

theorem harvestLoop_step_params_error {α : Type} (getErr : α → Option OAIError)
    (getTok : α → String) (cb : α → Option String) (mp : String)
    (outcome : Except String α) (script : List (Except String α))
    (rt : String) (dr : Option DateRange) (e : String)
    (hqp : listRecordsQueryParams mp rt dr = Except.error e) :
    harvestLoop getErr getTok cb mp (outcome :: script) rt dr =
      ⟨[], [], some e⟩ := by
  simp only [harvestLoop, hqp]

theorem harvestLoop_step_fetch_error {α : Type} (getErr : α → Option OAIError)
    (getTok : α → String) (cb : α → Option String) (mp : String)
    (e : String) (script : List (Except String α)) (rt : String)
    (dr : Option DateRange) (params : List (String × String))
    (hqp : listRecordsQueryParams mp rt dr = Except.ok params) :
    harvestLoop getErr getTok cb mp (Except.error e :: script) rt dr =
      ⟨[params], [], some e⟩ := by
  simp only [harvestLoop, hqp]

theorem harvestLoop_step_proto_error {α : Type} (getErr : α → Option OAIError)
    (getTok : α → String) (cb : α → Option String) (mp : String)
    (resp : α) (script : List (Except String α)) (rt : String)
    (dr : Option DateRange) (params : List (String × String)) (e : OAIError)
    (hqp : listRecordsQueryParams mp rt dr = Except.ok params)
    (herr : getErr resp = some e) :
    harvestLoop getErr getTok cb mp (Except.ok resp :: script) rt dr =
      ⟨[params], [],
        some ("OAI-PMH error [" ++ e.Code ++ "]: " ++ e.Message)⟩ := by
  simp only [harvestLoop, hqp, listRecordsCheck, herr]

theorem harvestLoop_step_cb_error {α : Type} (getErr : α → Option OAIError)
    (getTok : α → String) (cb : α → Option String) (mp : String)
    (resp : α) (script : List (Except String α)) (rt : String)
    (dr : Option DateRange) (params : List (String × String)) (msg : String)
    (hqp : listRecordsQueryParams mp rt dr = Except.ok params)
    (herr : getErr resp = none) (hcb : cb resp = some msg) :
    harvestLoop getErr getTok cb mp (Except.ok resp :: script) rt dr =
      ⟨[params], [resp], some ("callback error: " ++ msg)⟩ := by
  simp only [harvestLoop, hqp, listRecordsCheck, herr, hcb]

theorem harvestLoop_step_last {α : Type} (getErr : α → Option OAIError)
    (getTok : α → String) (cb : α → Option String) (mp : String)
    (resp : α) (script : List (Except String α)) (rt : String)
    (dr : Option DateRange) (params : List (String × String))
    (hqp : listRecordsQueryParams mp rt dr = Except.ok params)
    (herr : getErr resp = none) (hcb : cb resp = none)
    (htok : getTok resp = "") :
    harvestLoop getErr getTok cb mp (Except.ok resp :: script) rt dr =
      ⟨[params], [resp], none⟩ := by
  simp only [harvestLoop, hqp, listRecordsCheck, herr, hcb, htok, if_pos]

theorem harvestLoop_step_continue {α : Type} (getErr : α → Option OAIError)
    (getTok : α → String) (cb : α → Option String) (mp : String)
    (resp : α) (script : List (Except String α)) (rt : String)
    (dr : Option DateRange) (params : List (String × String))
    (hqp : listRecordsQueryParams mp rt dr = Except.ok params)
    (herr : getErr resp = none) (hcb : cb resp = none)
    (htok : getTok resp ≠ "") :
    harvestLoop getErr getTok cb mp (Except.ok resp :: script) rt dr =
      ⟨params ::
          (harvestLoop getErr getTok cb mp script (getTok resp) none).requests,
        resp ::
          (harvestLoop getErr getTok cb mp script (getTok resp) none).delivered,
        (harvestLoop getErr getTok cb mp script (getTok resp) none).result⟩ := by
  simp only [harvestLoop, hqp, listRecordsCheck, herr, hcb, if_neg htok]

theorem harvestLoop_token_only {α : Type} (getErr : α → Option OAIError)
    (getTok : α → String) (cb : α → Option String) (mp : String) :
    ∀ (script : List (Except String α)) (tok : String), tok ≠ "" →
    ∀ ps ∈ (harvestLoop getErr getTok cb mp script tok none).requests,
      ∃ t, t ≠ "" ∧ ps = [("verb", "ListRecords"), ("resumptionToken", t)]
  | [], tok, htok, ps, hps => by simp [harvestLoop] at hps
  | outcome :: script, tok, htok, ps, hps => by
    have hqp := listRecordsQueryParams_token mp tok none htok
    cases outcome with
    | error e =>
      rw [harvestLoop_step_fetch_error getErr getTok cb mp e script tok none
        _ hqp] at hps
      simp at hps
      exact ⟨tok, htok, hps⟩
    | ok resp =>
      cases herr : getErr resp with
      | some e =>
        rw [harvestLoop_step_proto_error getErr getTok cb mp resp script tok
          none _ e hqp herr] at hps
        simp at hps
        exact ⟨tok, htok, hps⟩
      | none =>
        cases hcb : cb resp with
        | some msg =>
          rw [harvestLoop_step_cb_error getErr getTok cb mp resp script tok
            none _ msg hqp herr hcb] at hps
          simp at hps
          exact ⟨tok, htok, hps⟩
        | none =>
          by_cases htok2 : getTok resp = ""
          · rw [harvestLoop_step_last getErr getTok cb mp resp script tok
              none _ hqp herr hcb htok2] at hps
            simp at hps
            exact ⟨tok, htok, hps⟩
          · rw [harvestLoop_step_continue getErr getTok cb mp resp script tok
              none _ hqp herr hcb htok2] at hps
            simp only [List.mem_cons] at hps
            rcases hps with rfl | hps
            · exact ⟨tok, htok, rfl⟩
            · exact harvestLoop_token_only getErr getTok cb mp script
                (getTok resp) htok2 ps hps

/-- Claim C1: in every harvest run with a supplied date range (non-empty
bounds, a registered non-empty metadata prefix), the first request's query
parameters are the verb, the metadataPrefix and the from/until bounds,
while every request of a later iteration carries exactly the verb and the
continuation token obtained from the previous page - no metadataPrefix,
from or until - even though the caller's date range is still in scope. -/
theorem harvest_one_shot_date_filter {α : Type} (getErr : α → Option OAIError)
    (getTok : α → String) (cb : α → Option String) (mp : String)
    (hmp : mp ≠ "") (dr : DateRange) (hfrom : dr.From ≠ "")
    (huntil : dr.Until ≠ "") (script : List (Except String α))
    (hscript : script ≠ []) :
    (harvestWithParser getErr getTok cb mp (some dr) script).requests.head? =
      some [("verb", "ListRecords"), ("metadataPrefix", mp),
        ("from", dr.From), ("until", dr.Until)] ∧
    ∀ ps ∈
      (harvestWithParser getErr getTok cb mp (some dr) script).requests.tail,
      ∃ t, t ≠ "" ∧ ps = [("verb", "ListRecords"), ("resumptionToken", t)] := by
  obtain ⟨outcome, rest, rfl⟩ : ∃ o s, script = o :: s := by
    cases script with
    | nil => exact absurd rfl hscript
    | cons o s => exact ⟨o, s, rfl⟩
  rw [harvestWithParser]
  have hqp := listRecordsQueryParams_first mp hmp dr hfrom huntil
  cases outcome with
  | error e =>
    rw [harvestLoop_step_fetch_error getErr getTok cb mp e rest "" (some dr)
      _ hqp]
    exact ⟨rfl, by simp⟩
  | ok resp =>
    cases herr : getErr resp with
    | some e =>
      rw [harvestLoop_step_proto_error getErr getTok cb mp resp rest ""
        (some dr) _ e hqp herr]
      exact ⟨rfl, by simp⟩
    | none =>
      cases hcb : cb resp with
      | some msg =>
        rw [harvestLoop_step_cb_error getErr getTok cb mp resp rest ""
          (some dr) _ msg hqp herr hcb]
        exact ⟨rfl, by simp⟩
      | none =>
        by_cases htok : getTok resp = ""
        · rw [harvestLoop_step_last getErr getTok cb mp resp rest "" (some dr)
            _ hqp herr hcb htok]
          exact ⟨rfl, by simp⟩
        · rw [harvestLoop_step_continue getErr getTok cb mp resp rest ""
            (some dr) _ hqp herr hcb htok]
          exact ⟨rfl, fun ps hps => harvestLoop_token_only getErr getTok cb mp
            rest (getTok resp) htok ps hps⟩

theorem harvestLoop_chain {α : Type} (getErr : α → Option OAIError)
    (getTok : α → String) (cb : α → Option String) (mp : String) :
    ∀ (pages : List α) (rt : String) (dr : Option DateRange),
    (∀ p ∈ pages, cb p = none) →
    rt ≠ "" ∨ mp ≠ "" → pageChain getErr getTok pages → pages ≠ [] →
    (harvestLoop getErr getTok cb mp (pages.map Except.ok) rt dr).delivered =
      pages ∧
    (harvestLoop getErr getTok cb mp (pages.map Except.ok) rt dr).result =
      none
  | [], _, _, _, _, _, hne => absurd rfl hne
  | [p], rt, dr, hcb, hok, hchain, _ => by
    obtain ⟨ps, hqp⟩ := listRecordsQueryParams_isOk mp rt dr hok
    have hchain' : getErr p = none ∧ getTok p = "" := hchain
    rw [List.map_cons, List.map_nil]
    rw [harvestLoop_step_last getErr getTok cb mp p [] rt dr ps hqp hchain'.1
      (hcb p (List.mem_cons_self p [])) hchain'.2]
    exact ⟨rfl, rfl⟩
  | p :: q :: pages, rt, dr, hcb, hok, hchain, _ => by
    obtain ⟨ps, hqp⟩ := listRecordsQueryParams_isOk mp rt dr hok
    have hchain' : getErr p = none ∧ getTok p ≠ "" ∧
        pageChain getErr getTok (q :: pages) := hchain
    rw [List.map_cons]
    rw [harvestLoop_step_continue getErr getTok cb mp p
      ((q :: pages).map Except.ok) rt dr ps hqp hchain'.1
      (hcb p (List.mem_cons_self p (q :: pages))) hchain'.2.1]
    have ih := harvestLoop_chain getErr getTok cb mp (q :: pages)
      (getTok p) none (fun r hr => hcb r (List.mem_cons_of_mem p hr))
      (Or.inl hchain'.2.1) hchain'.2.2 (by simp)
    exact ⟨by rw [ih.1], ih.2⟩

/-- Claim C2: for every scripted sequence of pages in which every page but
the last carries a non-empty continuation token and the last carries none
(and no page carries a protocol error), the harvest loop delivers exactly
the pages, in order, to the callback - so the callback runs once per page -
and returns a nil error after the last page. -/
theorem harvest_pagination_termination {α : Type} (getErr : α → Option OAIError)
    (getTok : α → String) (cb : α → Option String) (pages : List α)
    (hcb : ∀ p ∈ pages, cb p = none)
    (mp : String) (hmp : mp ≠ "") (dr : Option DateRange)
    (hne : pages ≠ []) (hchain : pageChain getErr getTok pages) :
    (harvestWithParser getErr getTok cb mp dr (pages.map Except.ok)).delivered =
      pages ∧
    (harvestWithParser getErr getTok cb mp dr (pages.map Except.ok)).result =
      none := by
  rw [harvestWithParser]
  exact harvestLoop_chain getErr getTok cb mp pages "" dr hcb (Or.inr hmp)
    hchain hne

theorem harvestLoop_proto_error {α : Type} (getErr : α → Option OAIError)
    (getTok : α → String) (cb : α → Option String) (mp : String) (bad : α)
    (e : OAIError) (hbad : getErr bad = some e)
    (post : List (Except String α)) :
    ∀ (pre : List α) (rt : String) (dr : Option DateRange),
    rt ≠ "" ∨ mp ≠ "" →
    (∀ p ∈ pre, getErr p = none ∧ getTok p ≠ "" ∧ cb p = none) →
    (harvestLoop getErr getTok cb mp
        (pre.map Except.ok ++ Except.ok bad :: post) rt dr).result =
      some ("OAI-PMH error [" ++ e.Code ++ "]: " ++ e.Message) ∧
    (harvestLoop getErr getTok cb mp
        (pre.map Except.ok ++ Except.ok bad :: post) rt dr).delivered = pre ∧
    (harvestLoop getErr getTok cb mp
        (pre.map Except.ok ++ Except.ok bad :: post) rt dr).requests.length =
      pre.length + 1
  | [], rt, dr, hok, _ => by
    obtain ⟨ps, hqp⟩ := listRecordsQueryParams_isOk mp rt dr hok
    rw [List.map_nil, List.nil_append]
    rw [harvestLoop_step_proto_error getErr getTok cb mp bad post rt dr ps e
      hqp hbad]
    exact ⟨rfl, rfl, rfl⟩
  | p :: pre, rt, dr, hok, hpre => by
    obtain ⟨ps, hqp⟩ := listRecordsQueryParams_isOk mp rt dr hok
    obtain ⟨herr, htok, hpcb⟩ := hpre p (List.mem_cons_self p pre)
    rw [List.map_cons, List.cons_append]
    rw [harvestLoop_step_continue getErr getTok cb mp p
      (pre.map Except.ok ++ Except.ok bad :: post) rt dr ps hqp herr hpcb
      htok]
    have ih := harvestLoop_proto_error getErr getTok cb mp bad e hbad post
      pre (getTok p) none (Or.inl htok)
      (fun q hq => hpre q (List.mem_cons_of_mem p hq))
    refine ⟨ih.1, by rw [ih.2.1], ?_⟩
    simp only [List.length_cons, ih.2.2]

/-- Claim C3: whenever the fetched page's envelope carries a protocol-level
error element - after any number of clean, token-carrying pages - the
harvest loop returns an error carrying that error's code and message, the
callback is never invoked for that page, and no further page is fetched. -/
theorem harvest_protocol_error_short_circuit {α : Type}
    (getErr : α → Option OAIError) (getTok : α → String)
    (cb : α → Option String) (mp : String)
    (hmp : mp ≠ "") (dr : Option DateRange) (pre : List α)
    (hpre : ∀ p ∈ pre, getErr p = none ∧ getTok p ≠ "" ∧ cb p = none)
    (bad : α) (e : OAIError) (hbad : getErr bad = some e)
    (post : List (Except String α)) :
    (harvestWithParser getErr getTok cb mp dr
        (pre.map Except.ok ++ Except.ok bad :: post)).result =
      some ("OAI-PMH error [" ++ e.Code ++ "]: " ++ e.Message) ∧
    (harvestWithParser getErr getTok cb mp dr
        (pre.map Except.ok ++ Except.ok bad :: post)).delivered = pre ∧
    (harvestWithParser getErr getTok cb mp dr
        (pre.map Except.ok ++ Except.ok bad :: post)).requests.length =
      pre.length + 1 := by
  rw [harvestWithParser]
  exact harvestLoop_proto_error getErr getTok cb mp bad e hbad post pre ""
    dr (Or.inr hmp) hpre

theorem harvestLoop_callback_abort {α : Type} (getErr : α → Option OAIError)
    (getTok : α → String) (cb : α → Option String) (mp : String) (pk : α)
    (hpkErr : getErr pk = none) (msg : String) (hpkCb : cb pk = some msg)
    (post : List (Except String α)) :
    ∀ (pre : List α) (rt : String) (dr : Option DateRange),
    rt ≠ "" ∨ mp ≠ "" →
    (∀ p ∈ pre, getErr p = none ∧ getTok p ≠ "" ∧ cb p = none) →
    (harvestLoop getErr getTok cb mp
        (pre.map Except.ok ++ Except.ok pk :: post) rt dr).result =
      some ("callback error: " ++ msg) ∧
    (harvestLoop getErr getTok cb mp
        (pre.map Except.ok ++ Except.ok pk :: post) rt dr).delivered =
      pre ++ [pk] ∧
    (harvestLoop getErr getTok cb mp
        (pre.map Except.ok ++ Except.ok pk :: post) rt dr).requests.length =
      pre.length + 1
  | [], rt, dr, hok, _ => by
    obtain ⟨ps, hqp⟩ := listRecordsQueryParams_isOk mp rt dr hok
    rw [List.map_nil, List.nil_append]
    rw [harvestLoop_step_cb_error getErr getTok cb mp pk post rt dr ps msg
      hqp hpkErr hpkCb]
    exact ⟨rfl, rfl, rfl⟩
  | p :: pre, rt, dr, hok, hpre => by
    obtain ⟨ps, hqp⟩ := listRecordsQueryParams_isOk mp rt dr hok
    obtain ⟨herr, htok, hpcb⟩ := hpre p (List.mem_cons_self p pre)
    rw [List.map_cons, List.cons_append]
    rw [harvestLoop_step_continue getErr getTok cb mp p
      (pre.map Except.ok ++ Except.ok pk :: post) rt dr ps hqp herr hpcb
      htok]
    have ih := harvestLoop_callback_abort getErr getTok cb mp pk hpkErr msg
      hpkCb post pre (getTok p) none (Or.inl htok)
      (fun q hq => hpre q (List.mem_cons_of_mem p hq))
    refine ⟨ih.1, by rw [ih.2.1, List.cons_append], ?_⟩
    simp only [List.length_cons, ih.2.2]

/-- Claim C4: when the callback returns a non-nil error on page k (after k
clean pages on which it returned nil), the harvest loop stops immediately,
returns that failure wrapped with callback-error context, fetches no page
after page k, and has invoked the callback exactly once per page up to and
including page k, in order. -/
theorem harvest_callback_abort {α : Type} (getErr : α → Option OAIError)
    (getTok : α → String) (cb : α → Option String) (mp : String)
    (hmp : mp ≠ "") (dr : Option DateRange) (pre : List α)
    (hpre : ∀ p ∈ pre, getErr p = none ∧ getTok p ≠ "" ∧ cb p = none)
    (pk : α) (hpkErr : getErr pk = none) (msg : String)
    (hpkCb : cb pk = some msg) (post : List (Except String α)) :
    (harvestWithParser getErr getTok cb mp dr
        (pre.map Except.ok ++ Except.ok pk :: post)).result =
      some ("callback error: " ++ msg) ∧
    (harvestWithParser getErr getTok cb mp dr
        (pre.map Except.ok ++ Except.ok pk :: post)).delivered =
      pre ++ [pk] ∧
    (harvestWithParser getErr getTok cb mp dr
        (pre.map Except.ok ++ Except.ok pk :: post)).requests.length =
      pre.length + 1 := by
  rw [harvestWithParser]
  exact harvestLoop_callback_abort getErr getTok cb mp pk hpkErr msg hpkCb
    post pre "" dr (Or.inr hmp) hpre

theorem harvestLoop_delivered_error_free {α : Type}
    (getErr : α → Option OAIError) (getTok : α → String)
    (cb : α → Option String) (mp : String) :
    ∀ (script : List (Except String α)) (rt : String)
      (dr : Option DateRange),
    ∀ r ∈ (harvestLoop getErr getTok cb mp script rt dr).delivered,
      getErr r = none
  | [], rt, dr, r, hr => by simp [harvestLoop] at hr
  | outcome :: script, rt, dr, r, hr => by
    cases hqp : listRecordsQueryParams mp rt dr with
    | error e =>
      rw [harvestLoop_step_params_error getErr getTok cb mp outcome script rt
        dr e hqp] at hr
      simp at hr
    | ok ps =>
      cases outcome with
      | error e =>
        rw [harvestLoop_step_fetch_error getErr getTok cb mp e script rt dr
          ps hqp] at hr
        simp at hr
      | ok resp =>
        cases herr : getErr resp with
        | some e =>
          rw [harvestLoop_step_proto_error getErr getTok cb mp resp script rt
            dr ps e hqp herr] at hr
          simp at hr
        | none =>
          cases hcb : cb resp with
          | some msg =>
            rw [harvestLoop_step_cb_error getErr getTok cb mp resp script rt
              dr ps msg hqp herr hcb] at hr
            simp at hr
            exact hr ▸ herr
          | none =>
            by_cases htok : getTok resp = ""
            · rw [harvestLoop_step_last getErr getTok cb mp resp script rt dr
                ps hqp herr hcb htok] at hr
              simp at hr
              exact hr ▸ herr
            · rw [harvestLoop_step_continue getErr getTok cb mp resp script
                rt dr ps hqp herr hcb htok] at hr
              simp only [List.mem_cons] at hr
              rcases hr with rfl | hr
              · exact herr
              · exact harvestLoop_delivered_error_free getErr getTok cb mp
                  script (getTok resp) none r hr

/-- Claim C10: invariant of the harvest loop, for both formats: every
envelope delivered to the caller's callback satisfies HasError = false and
GetError = none, because both format parsers return an error instead of a
response whenever the parsed envelope contains a protocol error element. -/
theorem harvest_delivered_no_protocol_error :
    (∀ (cb : OAIPMHResponse → Option String) (mp : String)
       (dr : Option DateRange) (script : List (Except String OAIPMHResponse)),
       ∀ r ∈ (harvestMARCXML cb mp dr script).delivered,
         r.HasError = false ∧ r.GetError = none) ∧
    (∀ (cb : OAIPMHResponseDC → Option String) (mp : String)
       (dr : Option DateRange)
       (script : List (Except String OAIPMHResponseDC)),
       ∀ r ∈ (harvestDublinCore cb mp dr script).delivered,
         r.HasError = false ∧ r.GetError = none) := by
  constructor
  · intro cb mp dr script r hr
    have h : OAIPMHResponse.GetError r = none :=
      harvestLoop_delivered_error_free OAIPMHResponse.GetError
        OAIPMHResponse.GetResumptionToken cb mp script "" dr r hr
    have herr : r.Error = none := h
    exact ⟨by rw [OAIPMHResponse.HasError, herr]; rfl, h⟩
  · intro cb mp dr script r hr
    have h : OAIPMHResponseDC.GetError r = none :=
      harvestLoop_delivered_error_free OAIPMHResponseDC.GetError
        OAIPMHResponseDC.GetResumptionToken cb mp script "" dr r hr
    have herr : r.Error = none := h
    exact ⟨by rw [OAIPMHResponseDC.HasError, herr]; rfl, h⟩

/-- A clean MARCXML page carrying the continuation token "T1". -/
def witnessPageWithToken : OAIPMHResponse where
  ResponseDate := "2024-01-01T00:00:00Z"
  Request := ⟨"ListRecords", "marcxml", "", ""⟩
  ListRecords := some ⟨[], some ⟨"T1", 0, 0, ""⟩⟩
  GetRecord := none
  Error := none

/-- A clean MARCXML page carrying no continuation token. -/
def witnessPageFinal : OAIPMHResponse where
  ResponseDate := "2024-01-02T00:00:00Z"
  Request := ⟨"ListRecords", "", "T1", ""⟩
  ListRecords := some ⟨[], none⟩
  GetRecord := none
  Error := none

/-- A page whose envelope carries a protocol error element. -/
def witnessErrorPage : OAIPMHResponse where
  ResponseDate := "2024-01-02T00:00:00Z"
  Request := ⟨"ListRecords", "", "T1", ""⟩
  ListRecords := none
  GetRecord := none
  Error := some ⟨"badResumptionToken", "token expired"⟩

/-- A callback that always succeeds. -/
def witnessOkCallback : OAIPMHResponse → Option String := fun _ => none

/-- A callback that fails on the final page with the message "boom". -/
def witnessAbortCallback : OAIPMHResponse → Option String := fun r =>
  if r = witnessPageFinal then some "boom" else none

/-- Witness for claim C1, at a concrete two-page MARCXML run with the date
range 2024-01-01 .. 2024-12-31. -/
theorem harvest_one_shot_date_filter_witness :
    (("marcxml" : String) ≠ "" ∧
      (DateRange.mk "2024-01-01" "2024-12-31").From ≠ "" ∧
      (DateRange.mk "2024-01-01" "2024-12-31").Until ≠ "" ∧
      ([Except.ok witnessPageWithToken, Except.ok witnessPageFinal] :
        List (Except String OAIPMHResponse)) ≠ []) ∧
    ((harvestWithParser OAIPMHResponse.GetError
        OAIPMHResponse.GetResumptionToken witnessOkCallback "marcxml"
        (some (DateRange.mk "2024-01-01" "2024-12-31"))
        [Except.ok witnessPageWithToken,
          Except.ok witnessPageFinal]).requests.head? =
      some [("verb", "ListRecords"), ("metadataPrefix", "marcxml"),
        ("from", "2024-01-01"), ("until", "2024-12-31")] ∧
    ∀ ps ∈ (harvestWithParser OAIPMHResponse.GetError
        OAIPMHResponse.GetResumptionToken witnessOkCallback "marcxml"
        (some (DateRange.mk "2024-01-01" "2024-12-31"))
        [Except.ok witnessPageWithToken,
          Except.ok witnessPageFinal]).requests.tail,
      ∃ t, t ≠ "" ∧ ps = [("verb", "ListRecords"), ("resumptionToken", t)]) :=
  ⟨⟨by decide, by decide, by decide, by simp⟩,
    harvest_one_shot_date_filter OAIPMHResponse.GetError
      OAIPMHResponse.GetResumptionToken witnessOkCallback "marcxml"
      (by decide) (DateRange.mk "2024-01-01" "2024-12-31") (by decide)
      (by decide) [Except.ok witnessPageWithToken, Except.ok witnessPageFinal]
      (by simp)⟩

/-- Witness for claim C2, at a concrete two-page MARCXML run. -/
theorem harvest_pagination_termination_witness :
    ((∀ p ∈ [witnessPageWithToken, witnessPageFinal],
        witnessOkCallback p = none) ∧ ("marcxml" : String) ≠ "" ∧
      ([witnessPageWithToken, witnessPageFinal] : List OAIPMHResponse) ≠ [] ∧
      pageChain OAIPMHResponse.GetError OAIPMHResponse.GetResumptionToken
        [witnessPageWithToken, witnessPageFinal]) ∧
    ((harvestWithParser OAIPMHResponse.GetError
        OAIPMHResponse.GetResumptionToken witnessOkCallback "marcxml" none
        ([witnessPageWithToken, witnessPageFinal].map Except.ok)).delivered =
      [witnessPageWithToken, witnessPageFinal] ∧
     (harvestWithParser OAIPMHResponse.GetError
        OAIPMHResponse.GetResumptionToken witnessOkCallback "marcxml" none
        ([witnessPageWithToken, witnessPageFinal].map Except.ok)).result =
      none) :=
  ⟨⟨fun _ _ => rfl, by decide, by simp, ⟨rfl, by decide, rfl, rfl⟩⟩,
    harvest_pagination_termination OAIPMHResponse.GetError
      OAIPMHResponse.GetResumptionToken witnessOkCallback
      [witnessPageWithToken, witnessPageFinal] (fun _ _ => rfl)
      "marcxml" (by decide) none
      (by simp) ⟨rfl, by decide, rfl, rfl⟩⟩

/-- Witness for claim C3: one clean token page, then a protocol-error page,
with one more scripted page behind it that is never fetched. -/
theorem harvest_protocol_error_short_circuit_witness :
    (("marcxml" : String) ≠ "" ∧
      (∀ p ∈ [witnessPageWithToken],
        OAIPMHResponse.GetError p = none ∧
        OAIPMHResponse.GetResumptionToken p ≠ "" ∧
        witnessOkCallback p = none) ∧
      OAIPMHResponse.GetError witnessErrorPage =
        some ⟨"badResumptionToken", "token expired"⟩) ∧
    ((harvestWithParser OAIPMHResponse.GetError
        OAIPMHResponse.GetResumptionToken witnessOkCallback "marcxml" none
        ([witnessPageWithToken].map Except.ok ++
          Except.ok witnessErrorPage :: [Except.ok witnessPageFinal])).result =
      some ("OAI-PMH error [" ++ "badResumptionToken" ++ "]: " ++
        "token expired") ∧
     (harvestWithParser OAIPMHResponse.GetError
        OAIPMHResponse.GetResumptionToken witnessOkCallback "marcxml" none
        ([witnessPageWithToken].map Except.ok ++
          Except.ok witnessErrorPage ::
            [Except.ok witnessPageFinal])).delivered =
      [witnessPageWithToken] ∧
     (harvestWithParser OAIPMHResponse.GetError
        OAIPMHResponse.GetResumptionToken witnessOkCallback "marcxml" none
        ([witnessPageWithToken].map Except.ok ++
          Except.ok witnessErrorPage ::
            [Except.ok witnessPageFinal])).requests.length =
      [witnessPageWithToken].length + 1) :=
  ⟨⟨by decide, by decide, rfl⟩,
    harvest_protocol_error_short_circuit OAIPMHResponse.GetError
      OAIPMHResponse.GetResumptionToken witnessOkCallback
      "marcxml" (by decide) none [witnessPageWithToken] (by decide)
      witnessErrorPage ⟨"badResumptionToken", "token expired"⟩ rfl
      [Except.ok witnessPageFinal]⟩

/-- Witness for claim C4: the callback succeeds on page 1, fails on page 2
with "boom", and the scripted page 3 is never fetched. -/
theorem harvest_callback_abort_witness :
    (("marcxml" : String) ≠ "" ∧
      (∀ p ∈ [witnessPageWithToken],
        OAIPMHResponse.GetError p = none ∧
        OAIPMHResponse.GetResumptionToken p ≠ "" ∧
        witnessAbortCallback p = none) ∧
      OAIPMHResponse.GetError witnessPageFinal = none ∧
      witnessAbortCallback witnessPageFinal = some "boom") ∧
    ((harvestWithParser OAIPMHResponse.GetError
        OAIPMHResponse.GetResumptionToken witnessAbortCallback "marcxml" none
        ([witnessPageWithToken].map Except.ok ++
          Except.ok witnessPageFinal :: [Except.ok witnessErrorPage])).result =
      some ("callback error: " ++ "boom") ∧
     (harvestWithParser OAIPMHResponse.GetError
        OAIPMHResponse.GetResumptionToken witnessAbortCallback "marcxml" none
        ([witnessPageWithToken].map Except.ok ++
          Except.ok witnessPageFinal ::
            [Except.ok witnessErrorPage])).delivered =
      [witnessPageWithToken] ++ [witnessPageFinal] ∧
     (harvestWithParser OAIPMHResponse.GetError
        OAIPMHResponse.GetResumptionToken witnessAbortCallback "marcxml" none
        ([witnessPageWithToken].map Except.ok ++
          Except.ok witnessPageFinal ::
            [Except.ok witnessErrorPage])).requests.length =
      [witnessPageWithToken].length + 1) :=
  ⟨⟨by decide, by decide, rfl, by decide⟩,
    harvest_callback_abort OAIPMHResponse.GetError
      OAIPMHResponse.GetResumptionToken witnessAbortCallback "marcxml"
      (by decide) none [witnessPageWithToken] (by decide) witnessPageFinal
      rfl "boom" (by decide) [Except.ok witnessErrorPage]⟩

/-- Witness for claim C10: the final page of a concrete one-page MARCXML
run is delivered and carries no error. -/
theorem harvest_delivered_no_protocol_error_witness :
    witnessPageFinal ∈
      (harvestMARCXML witnessOkCallback "marcxml" none
        [Except.ok witnessPageFinal]).delivered ∧
    (witnessPageFinal.HasError = false ∧ witnessPageFinal.GetError = none) :=
  ⟨by decide,
    harvest_delivered_no_protocol_error.1 witnessOkCallback "marcxml" none
      [Except.ok witnessPageFinal] witnessPageFinal (by decide)⟩

end GoHarvest
